import Mathlib

/-!
Verification of the zeroconf-rs TXT-record and Avahi entry-group layer.

This file gives a shallow embedding of the parts of the `zeroconf` crate that
the specification talks about:

* `TxtRecord` — an ordered key/value map with DNS-SD TXT wire serialization.
  The implementation file of `TxtRecord` is not part of the sources at hand
  (only its test suite `src/zeroconf/src/tests/txt_record_test.rs` is), so the
  operations are modelled from the specification, faithfully following its
  wording, and checked against the test suite.
* `ManagedAvahiEntryGroup` — the wrapper around the native Avahi entry-group
  handle from `src/zeroconf/src/linux/entry_group.rs`.  The native daemon is
  modelled as an explicit state (`AvahiDaemon`) threaded through the calls.
-/

set_option autoImplicit false

deriving instance DecidableEq for Except

namespace Zeroconf

/-- Errors of the TXT-record API as named by the specification. -/
inductive ZError where
  | EncodingError : ZError
  | NotFoundError : ZError
  deriving DecidableEq, Repr

/-- Modelled from the spec: a `TxtRecord` holds an ordered sequence of
key/value attributes, keys unique, insertion order preserved.  The
implementation file of `TxtRecord` is missing from the sources (only its
tests are present), so the representation follows the spec's data model. -/
abbrev TxtRecord := List (String × String)

/-- The delimiter byte `=` separating key from value on the wire. -/
def delim : Nat := 61

/-- The bytes of a string (one byte per character; the spec's keys and
values are treated at byte level). -/
def strBytes (s : String) : List Nat :=
  s.toList.map Char.toNat

/-- Rebuild a string from its bytes. -/
def bytesToStr (l : List Nat) : String :=
  String.mk (l.map Char.ofNat)

/-- Modelled from the spec: the encoded attribute segment for one
key/value pair: the bytes of `key`, the delimiter byte, the bytes of
`value`.  The length byte written in front of it on the wire counts
exactly these bytes. -/
def segmentBytes (k v : String) : List Nat :=
  strBytes k ++ delim :: strBytes v

namespace TxtRecord

/-- Modelled from the spec: `TxtRecord::new()` creates an empty record. -/
def new : TxtRecord := []

/-- Insert into the ordered association list: an existing key keeps its
position and gets the new value, a fresh key is appended at the end. -/
def insertPair : TxtRecord → String → String → TxtRecord
  | [], k, v => [(k, v)]
  | (k0, v0) :: rest, k, v =>
    if k0 = k then (k0, v) :: rest else (k0, v0) :: insertPair rest k v

/-- Modelled from the spec: `TxtRecord::insert(key, value)` fails with
`EncodingError` if `key` is empty, if `key` contains the delimiter byte
`=`, or if the encoded attribute segment would exceed 255 bytes;
otherwise it stores the pair, replacing the value of an existing key. -/
def insert (r : TxtRecord) (k v : String) : Except ZError TxtRecord :=
  if k = "" then .error .EncodingError
  else if (strBytes k).contains delim then .error .EncodingError
  else if 255 < (segmentBytes k v).length then .error .EncodingError
  else .ok (insertPair r k v)

/-- Modelled from the spec: `TxtRecord::get(key)` returns the value
stored under `key`, or `None` if the key is absent. -/
def get : TxtRecord → String → Option String
  | [], _ => none
  | (k0, v0) :: rest, k => if k0 = k then some v0 else get rest k

/-- Modelled from the spec: `TxtRecord::contains_key(key)`. -/
def contains_key (r : TxtRecord) (k : String) : Bool :=
  (get r k).isSome

/-- Modelled from the spec: `TxtRecord::remove(key)` fails with
`NotFoundError` when the key is absent, otherwise removes the entry. -/
def remove (r : TxtRecord) (k : String) : Except ZError TxtRecord :=
  if (get r k).isSome then .ok (r.filter (fun p => p.1 ≠ k))
  else .error .NotFoundError

/-- Modelled from the spec: `TxtRecord::len()`. -/
def len (r : TxtRecord) : Nat := r.length

/-- Modelled from the spec: `TxtRecord::iter()` yields the `(key, value)`
pairs in insertion order. -/
def iter (r : TxtRecord) : List (String × String) := r

/-- Modelled from the spec: `TxtRecord::keys()` yields the keys in
insertion order. -/
def keys (r : TxtRecord) : List String := r.map Prod.fst

/-- Modelled from the spec: `TxtRecord::values()` yields the values in
insertion order. -/
def values (r : TxtRecord) : List String := r.map Prod.snd

/-- Modelled from the spec: serialization concatenates, for each attribute
in insertion order, a single length byte followed by `key=value`.  The
length byte is a byte, so the stored count is taken modulo 256. -/
def to_wire_bytes (r : TxtRecord) : List Nat :=
  (r.map (fun p => (segmentBytes p.1 p.2).length % 256 :: segmentBytes p.1 p.2)).flatten

/-- Modelled from the spec: the string rendering of a record is its wire
form read back as characters. -/
def to_string (r : TxtRecord) : String :=
  bytesToStr (to_wire_bytes r)

/-- Split one wire segment at the first delimiter byte into key bytes and
value bytes. -/
def splitSeg (seg : List Nat) : String × String :=
  let p := seg.span (fun b => b ≠ delim)
  (bytesToStr p.1, bytesToStr p.2.tail)

/-- Auxiliary parse loop; the fuel bounds the number of segments and is
never exhausted when it starts at the length of the input. -/
def parseWireAux : Nat → List Nat → Option TxtRecord
  | _, [] => some []
  | 0, _ :: _ => none
  | fuel + 1, n :: rest =>
    if n ≤ rest.length then
      match parseWireAux fuel (rest.drop n) with
      | some r => some (splitSeg (rest.take n) :: r)
      | none => none
    else none

/-- Modelled from the spec: the parse routine used when importing a record
received from the daemon: repeatedly read a length byte `n`, take the next
`n` bytes as one `key=value` segment; fail if fewer than `n` bytes remain. -/
def parseWire (l : List Nat) : Option TxtRecord :=
  parseWireAux l.length l

/-- One step of a sequence of inserts: apply `insert`, keeping the record
unchanged when the insert fails. -/
def insertStep (r : TxtRecord) (p : String × String) : TxtRecord :=
  match insert r p.1 p.2 with
  | .ok r2 => r2
  | .error _ => r

/-- Modelled from the spec: perform a sequence of inserts starting from the
empty record; an insert that fails leaves the record unchanged. -/
def insertAll (ops : List (String × String)) : TxtRecord :=
  ops.foldl insertStep new

end TxtRecord

/-- A key/value pair accepted by `TxtRecord.insert`: nonempty key, no
delimiter byte in the key, encoded segment at most 255 bytes. -/
def validPair (p : String × String) : Prop :=
  p.1 ≠ "" ∧ delim ∉ strBytes p.1 ∧ (segmentBytes p.1 p.2).length ≤ 255

instance : DecidablePred validPair := fun p => by
  unfold validPair
  infer_instance

/-- A record all of whose attributes are accepted by `TxtRecord.insert`:
exactly the records reachable through successful inserts. -/
def Valid (r : TxtRecord) : Prop := ∀ p ∈ r, validPair p

instance (r : TxtRecord) : Decidable (Valid r) := by
  unfold Valid
  infer_instance

/-! ## The Avahi entry-group layer (`src/zeroconf/src/linux/entry_group.rs`)

The Rust code wraps a raw `*mut AvahiEntryGroup` handle and delegates to the
native Avahi client library.  The native daemon side is modelled as an
explicit state `AvahiDaemon`; raw pointers are modelled as natural numbers
with `0` playing the role of the null pointer. -/

/-- The `ManagedAvahiClient` wrapper: holds the raw client handle. -/
structure ManagedAvahiClient where
  inner : Nat
  deriving DecidableEq, Repr

/-- Modelled from the spec: the observable state of the native Avahi daemon
session.  `newResult` is the handle `avahi_entry_group_new` returns (`0` for
null), `errno`/`strerror` give the daemon's reported error, `allocated` is
the set of live entry-group handles, and `groups` maps each handle to the
records currently registered in that group. -/
structure AvahiDaemon where
  newResult : Nat
  errno : Int
  strerror : Int → String
  allocated : List Nat
  groups : Nat → List (String × String)

/-- Modelled from the spec: `avahi_entry_group_is_empty` is answered by the
daemon at call time: nonzero exactly when no record is currently registered
in the group behind the handle. -/
def avahi_entry_group_is_empty (d : AvahiDaemon) (h : Nat) : Int :=
  if d.groups h = [] then 1 else 0

/-- Modelled from the spec: `avahi_entry_group_reset` withdraws all records
of the group behind the handle, leaving the handle allocated. -/
def avahi_entry_group_reset (d : AvahiDaemon) (h : Nat) : AvahiDaemon :=
  { d with groups := fun h2 => if h2 = h then [] else d.groups h2 }

/-- Modelled from the spec: `avahi_entry_group_free` releases the handle. -/
def avahi_entry_group_free (d : AvahiDaemon) (h : Nat) : AvahiDaemon :=
  { d with allocated := d.allocated.erase h }

/-- `ManagedAvahiEntryGroup`: the raw entry-group handle together with the
shared reference to the client session (`_client` in the Rust struct). -/
structure ManagedAvahiEntryGroup where
  inner : Nat
  client : ManagedAvahiClient
  deriving DecidableEq, Repr

namespace ManagedAvahiEntryGroup

/-- `ManagedAvahiEntryGroup::new`: calls `avahi_entry_group_new`; if the
returned pointer is null it reads the session's `errno`, renders it with
`avahi_util::get_error` and fails with the formatted message; otherwise it
wraps the handle together with the client reference. -/
def new (d : AvahiDaemon) (client : ManagedAvahiClient)
    : Except String ManagedAvahiEntryGroup :=
  let inner := d.newResult
  if inner = 0 then
    .error ("could not initialize AvahiEntryGroup: " ++ d.strerror d.errno)
  else
    .ok { inner := inner, client := client }

/-- `ManagedAvahiEntryGroup::is_empty`: delegates to
`avahi_entry_group_is_empty` on the stored handle and compares the native
result with `0`. -/
def is_empty (g : ManagedAvahiEntryGroup) (d : AvahiDaemon) : Bool :=
  avahi_entry_group_is_empty d g.inner ≠ 0

/-- `ManagedAvahiEntryGroup::reset`: delegates to `avahi_entry_group_reset`
on the stored handle; it returns unit (modelled as returning only the new
daemon state), exposing no failure to the caller. -/
def reset (g : ManagedAvahiEntryGroup) (d : AvahiDaemon) : AvahiDaemon :=
  avahi_entry_group_reset d g.inner

/-- `Drop for ManagedAvahiEntryGroup`: delegates to
`avahi_entry_group_free` on the stored handle. -/
def drop (g : ManagedAvahiEntryGroup) (d : AvahiDaemon) : AvahiDaemon :=
  avahi_entry_group_free d g.inner

end ManagedAvahiEntryGroup

end Zeroconf

namespace Zeroconf

theorem strBytes_inv (s : String) : bytesToStr (strBytes s) = s := by
  cases s with
  | mk l =>
    simp [bytesToStr, strBytes, String.toList, List.map_map, Function.comp_def,
      Char.ofNat_toNat]

/-- C1: inserting `foo=bar` into a fresh record serializes to the 8-byte
sequence `[0x07, f, o, o, =, b, a, r]`: a length byte `0x07` followed by the
bytes of `foo=bar`, as the spec's serialization algorithm dictates.  The
repository test `to_string_success` instead expects a first byte of `0x14`
(decimal 20), which no 7-byte segment can carry; the rendered string differs
from the test's expectation. -/
theorem c1_wire_bytes_foo_bar :
    TxtRecord.new.insert "foo" "bar" = .ok [("foo", "bar")]
    ∧ TxtRecord.to_wire_bytes [("foo", "bar")] = [0x07, 102, 111, 111, 61, 98, 97, 114]
    ∧ TxtRecord.to_string [("foo", "bar")] = "\u0007foo=bar"
    ∧ TxtRecord.to_string [("foo", "bar")] ≠ "\u0014foo=bar" := by
  refine ⟨by decide, by decide, by decide, by decide⟩

/-- C5: after inserting `foo=bar`, `baz=qux`, `hello=world` into an empty
record, iteration yields exactly these three pairs in insertion order,
`len` is 3, and `keys`/`values` yield the keys and the values in the same
order (lists, hence finite and restartable). -/
theorem c5_iteration_scenario :
    TxtRecord.new.insert "foo" "bar" = .ok [("foo", "bar")]
    ∧ TxtRecord.insert [("foo", "bar")] "baz" "qux" = .ok [("foo", "bar"), ("baz", "qux")]
    ∧ TxtRecord.insert [("foo", "bar"), ("baz", "qux")] "hello" "world"
        = .ok [("foo", "bar"), ("baz", "qux"), ("hello", "world")]
    ∧ TxtRecord.iter [("foo", "bar"), ("baz", "qux"), ("hello", "world")]
        = [("foo", "bar"), ("baz", "qux"), ("hello", "world")]
    ∧ TxtRecord.len [("foo", "bar"), ("baz", "qux"), ("hello", "world")] = 3
    ∧ TxtRecord.keys [("foo", "bar"), ("baz", "qux"), ("hello", "world")]
        = ["foo", "baz", "hello"]
    ∧ TxtRecord.values [("foo", "bar"), ("baz", "qux"), ("hello", "world")]
        = ["bar", "qux", "world"] := by
  decide

set_option maxRecDepth 4096 in
/-- C3: `insert` fails with `EncodingError` exactly when the key is empty,
the key contains the delimiter byte `=`, or the encoded segment exceeds 255
bytes; otherwise it succeeds, and in particular an insert whose encoded
segment is exactly 255 bytes (1-byte key, delimiter, 253-byte value)
succeeds. -/
theorem c3_insert_encoding_error :
    (∀ (r : TxtRecord) (k v : String),
        TxtRecord.insert r k v = .error .EncodingError
          ↔ (k = "" ∨ delim ∈ strBytes k ∨ 255 < (segmentBytes k v).length))
    ∧ (∀ (r : TxtRecord) (k v : String),
        ¬(k = "" ∨ delim ∈ strBytes k ∨ 255 < (segmentBytes k v).length) →
          TxtRecord.insert r k v = .ok (TxtRecord.insertPair r k v))
    ∧ (segmentBytes "k" (String.mk (List.replicate 253 'a'))).length = 255
    ∧ TxtRecord.new.insert "k" (String.mk (List.replicate 253 'a'))
        = .ok [("k", String.mk (List.replicate 253 'a'))] := by
  refine ⟨?_, ?_, by decide, by decide⟩
  · intro r k v
    unfold TxtRecord.insert
    split_ifs with h1 h2 h3 <;> simp_all [List.elem_iff]
  · intro r k v h
    unfold TxtRecord.insert
    split_ifs with h1 h2 h3 <;> simp_all [List.elem_iff]

/-- C3 witness: the empty key is rejected with `EncodingError`. -/
theorem c3_insert_encoding_error_witness :
    TxtRecord.insert [] "" "x" = .error .EncodingError :=
  (c3_insert_encoding_error.1 [] "" "x").mpr (Or.inl rfl)

theorem get_insertPair_self (r : TxtRecord) (k v : String) :
    TxtRecord.get (TxtRecord.insertPair r k v) k = some v := by
  induction r with
  | nil => simp [TxtRecord.insertPair, TxtRecord.get]
  | cons p rest ih =>
    obtain ⟨k0, v0⟩ := p
    by_cases h : k0 = k <;> simp [TxtRecord.insertPair, TxtRecord.get, h, ih]

theorem length_insertPair_mem (r : TxtRecord) (k v : String)
    (h : (TxtRecord.get r k).isSome = true) :
    (TxtRecord.insertPair r k v).length = r.length := by
  induction r with
  | nil => simp [TxtRecord.get] at h
  | cons p rest ih =>
    obtain ⟨k0, v0⟩ := p
    by_cases hk : k0 = k
    · simp [TxtRecord.insertPair, hk]
    · simp [TxtRecord.get, hk] at h
      simp [TxtRecord.insertPair, hk, ih h]

theorem mem_insertPair (r : TxtRecord) (k v : String) :
    ∀ p ∈ TxtRecord.insertPair r k v, p = (k, v) ∨ p ∈ r := by
  induction r with
  | nil => simp [TxtRecord.insertPair]
  | cons q rest ih =>
    obtain ⟨k0, v0⟩ := q
    intro p hp
    by_cases hk : k0 = k
    · subst hk
      rw [TxtRecord.insertPair, if_pos rfl] at hp
      rcases List.mem_cons.mp hp with h | h
      · left; exact h
      · right; exact List.mem_cons_of_mem _ h
    · rw [TxtRecord.insertPair, if_neg hk] at hp
      rcases List.mem_cons.mp hp with h | h
      · right; exact h ▸ List.mem_cons_self _ _
      · rcases ih p h with h2 | h2
        · left; exact h2
        · right; exact List.mem_cons_of_mem _ h2

theorem mem_keys_insertPair (r : TxtRecord) (k v : String) :
    ∀ x ∈ TxtRecord.keys (TxtRecord.insertPair r k v), x = k ∨ x ∈ TxtRecord.keys r := by
  intro x hx
  simp only [TxtRecord.keys, List.mem_map] at hx
  obtain ⟨p, hp, hpx⟩ := hx
  rcases mem_insertPair r k v p hp with h | h
  · left
    rw [← hpx, h]
  · right
    simp only [TxtRecord.keys, List.mem_map]
    exact ⟨p, h, hpx⟩

theorem keys_insertPair_cons_eq (rest : TxtRecord) (k0 v0 k v : String) (hk : k0 = k) :
    TxtRecord.keys (TxtRecord.insertPair ((k0, v0) :: rest) k v)
      = TxtRecord.keys ((k0, v0) :: rest) := by
  rw [TxtRecord.insertPair, if_pos hk]
  simp [TxtRecord.keys]

theorem nodup_keys_insertPair (r : TxtRecord) (k v : String)
    (h : (TxtRecord.keys r).Nodup) :
    (TxtRecord.keys (TxtRecord.insertPair r k v)).Nodup := by
  induction r with
  | nil => simp [TxtRecord.insertPair, TxtRecord.keys]
  | cons q rest ih =>
    obtain ⟨k0, v0⟩ := q
    by_cases hk : k0 = k
    · rw [keys_insertPair_cons_eq rest k0 v0 k v hk]
      exact h
    · rw [TxtRecord.insertPair, if_neg hk]
      simp only [TxtRecord.keys, List.map_cons] at h ⊢
      rw [List.nodup_cons] at h ⊢
      obtain ⟨hnot, hrest⟩ := h
      refine ⟨?_, ih hrest⟩
      intro hmem
      rcases mem_keys_insertPair rest k v k0 hmem with h2 | h2
      · exact hk h2
      · exact hnot (by simpa [TxtRecord.keys] using h2)

theorem insertStep_cases (r : TxtRecord) (p : String × String) :
    TxtRecord.insertStep r p = TxtRecord.insertPair r p.1 p.2
      ∨ TxtRecord.insertStep r p = r := by
  unfold TxtRecord.insertStep TxtRecord.insert
  split_ifs
  all_goals simp

theorem keys_foldl_insertStep (ops : List (String × String)) :
    ∀ r : TxtRecord, (TxtRecord.keys r).Nodup →
      (TxtRecord.keys (ops.foldl TxtRecord.insertStep r)).Nodup
      ∧ ∀ x ∈ TxtRecord.keys (ops.foldl TxtRecord.insertStep r),
          x ∈ TxtRecord.keys r ∨ x ∈ ops.map Prod.fst := by
  induction ops with
  | nil =>
    intro r h
    exact ⟨h, fun x hx => Or.inl hx⟩
  | cons p ops ih =>
    intro r h
    have hnd : (TxtRecord.keys (TxtRecord.insertStep r p)).Nodup := by
      rcases insertStep_cases r p with he | he
      · rw [he]; exact nodup_keys_insertPair _ _ _ h
      · rw [he]; exact h
    obtain ⟨ha, hb⟩ := ih (TxtRecord.insertStep r p) hnd
    constructor
    · simpa [List.foldl_cons] using ha
    · intro x hx
      rw [List.foldl_cons] at hx
      rcases hb x hx with h2 | h2
      · rcases insertStep_cases r p with he | he
        · rw [he] at h2
          rcases mem_keys_insertPair r p.1 p.2 x h2 with h3 | h3
          · right; simp [h3]
          · left; exact h3
        · rw [he] at h2
          left; exact h2
      · right; simp [h2]

theorem nodup_length_le_dedup (l m : List String) (h1 : l.Nodup) (h2 : l ⊆ m) :
    l.length ≤ m.dedup.length := by
  have e1 : l.toFinset.card = l.length := List.toFinset_card_of_nodup h1
  have e2 : m.toFinset.card = m.dedup.length := List.card_toFinset m
  have hsub : l.toFinset ⊆ m.toFinset := by
    intro x hx
    rw [List.mem_toFinset] at hx ⊢
    exact h2 hx
  calc l.length = l.toFinset.card := e1.symm
    _ ≤ m.toFinset.card := Finset.card_le_card hsub
    _ = m.dedup.length := e2

/-- C4: keys are unique: inserting a key already present replaces its value
and leaves the length unchanged, and after any sequence of inserts starting
from the empty record, `len` never exceeds the number of distinct keys
inserted. -/
theorem c4_keys_unique :
    (∀ (r r2 : TxtRecord) (k v : String),
        (TxtRecord.get r k).isSome = true →
        TxtRecord.insert r k v = .ok r2 →
        TxtRecord.len r2 = TxtRecord.len r ∧ TxtRecord.get r2 k = some v)
    ∧ ∀ ops : List (String × String),
        TxtRecord.len (TxtRecord.insertAll ops) ≤ ((ops.map Prod.fst).dedup).length := by
  constructor
  · intro r r2 k v hmem hok
    have he : r2 = TxtRecord.insertPair r k v := by
      unfold TxtRecord.insert at hok
      split_ifs at hok
      exact (Except.ok.inj hok).symm
    subst he
    exact ⟨length_insertPair_mem r k v hmem, get_insertPair_self r k v⟩
  · intro ops
    obtain ⟨ha, hb⟩ := keys_foldl_insertStep ops TxtRecord.new
      (by simp [TxtRecord.new, TxtRecord.keys])
    have hsub : TxtRecord.keys (TxtRecord.insertAll ops) ⊆ ops.map Prod.fst := by
      intro x hx
      rcases hb x (by simpa [TxtRecord.insertAll] using hx) with h | h
      · simp [TxtRecord.new, TxtRecord.keys] at h
      · exact h
    have hlen : (TxtRecord.keys (TxtRecord.insertAll ops)).length
        ≤ ((ops.map Prod.fst).dedup).length :=
      nodup_length_le_dedup _ _ (by simpa [TxtRecord.insertAll] using ha) hsub
    simpa [TxtRecord.len, TxtRecord.keys] using hlen

/-- C4 witness: inserting key `a` over an existing `a` entry keeps the
length and replaces the value. -/
theorem c4_keys_unique_witness :
    TxtRecord.len [("a", "2")] = TxtRecord.len [("a", "1")]
    ∧ TxtRecord.get [("a", "2")] "a" = some "2" :=
  c4_keys_unique.1 [("a", "1")] [("a", "2")] "a" "2" (by decide) (by decide)

theorem get_filter_ne (r : TxtRecord) (k : String) :
    TxtRecord.get (r.filter (fun p => p.1 ≠ k)) k = none := by
  induction r with
  | nil => rfl
  | cons p rest ih =>
    obtain ⟨k0, v0⟩ := p
    rw [List.filter_cons]
    by_cases h : k0 = k
    · rw [if_neg (by simp [h])]
      exact ih
    · rw [if_pos (by simp [h])]
      simp only [TxtRecord.get]
      rw [if_neg h]
      exact ih

/-- C6: `remove` on an absent key fails with `NotFoundError` and `get` on an
absent key returns `none`; after a successful `remove`, `get` returns `none`
and `contains_key` is `false`. -/
theorem c6_remove_absent :
    (∀ (r : TxtRecord) (k : String),
        TxtRecord.contains_key r k = false →
        TxtRecord.remove r k = .error .NotFoundError ∧ TxtRecord.get r k = none)
    ∧ (∀ (r r2 : TxtRecord) (k : String),
        TxtRecord.remove r k = .ok r2 →
        TxtRecord.get r2 k = none ∧ TxtRecord.contains_key r2 k = false) := by
  constructor
  · intro r k h
    have hg : TxtRecord.get r k = none := by
      cases hgv : TxtRecord.get r k with
      | none => rfl
      | some v => simp [TxtRecord.contains_key, hgv] at h
    refine ⟨?_, hg⟩
    unfold TxtRecord.remove
    simp [hg]
  · intro r r2 k h
    have he : r2 = r.filter (fun p => p.1 ≠ k) := by
      unfold TxtRecord.remove at h
      split_ifs at h
      exact (Except.ok.inj h).symm
    subst he
    have hg := get_filter_ne r k
    refine ⟨hg, ?_⟩
    simp only [TxtRecord.contains_key]
    rw [hg]
    rfl

/-- C6 witness: removing from the empty record fails with `NotFoundError`
and `get` on it returns `none`. -/
theorem c6_remove_absent_witness :
    TxtRecord.remove [] "foo" = .error .NotFoundError
    ∧ TxtRecord.get [] "foo" = none :=
  c6_remove_absent.1 [] "foo" (by decide)

/-- C7: `ManagedAvahiEntryGroup::new` fails with a message carrying the
daemon's reported error text whenever the native allocation yields no
handle, and otherwise returns a group holding the handle and the client
reference. -/
theorem c7_entry_group_new :
    ∀ (d : AvahiDaemon) (c : ManagedAvahiClient),
      (d.newResult = 0 →
        ManagedAvahiEntryGroup.new d c
          = .error ("could not initialize AvahiEntryGroup: " ++ d.strerror d.errno))
      ∧ (d.newResult ≠ 0 →
        ManagedAvahiEntryGroup.new d c
          = .ok { inner := d.newResult, client := c }) := by
  intro d c
  constructor
  · intro h
    simp [ManagedAvahiEntryGroup.new, h]
  · intro h
    simp [ManagedAvahiEntryGroup.new, h]

/-- C7 witness: a daemon returning handle 7 yields a constructed group. -/
theorem c7_entry_group_new_witness :
    ManagedAvahiEntryGroup.new
        { newResult := 7, errno := 0, strerror := fun _ => "", allocated := [7],
          groups := fun _ => [] }
        { inner := 1 }
      = .ok { inner := 7, client := { inner := 1 } } :=
  (c7_entry_group_new
      { newResult := 7, errno := 0, strerror := fun _ => "", allocated := [7],
        groups := fun _ => [] }
      { inner := 1 }).2 (by decide)

/-- C8: `is_empty` is a live query: its answer is exactly the daemon's
answer for the stored handle at call time — true iff no record is
currently registered in the group — and two daemon states agreeing on
that group give the same answer, so nothing is cached locally. -/
theorem c8_is_empty_live :
    (∀ (d : AvahiDaemon) (g : ManagedAvahiEntryGroup),
        g.is_empty d = true ↔ d.groups g.inner = [])
    ∧ (∀ (d1 d2 : AvahiDaemon) (g : ManagedAvahiEntryGroup),
        d1.groups g.inner = d2.groups g.inner → g.is_empty d1 = g.is_empty d2) := by
  constructor
  · intro d g
    simp only [ManagedAvahiEntryGroup.is_empty, avahi_entry_group_is_empty]
    by_cases h : d.groups g.inner = [] <;> simp [h]
  · intro d1 d2 g h
    simp only [ManagedAvahiEntryGroup.is_empty, avahi_entry_group_is_empty, h]

/-- C8 witness: a group with one registered record is not empty, and the
live answer agrees across equal daemon views. -/
theorem c8_is_empty_live_witness :
    ManagedAvahiEntryGroup.is_empty { inner := 7, client := { inner := 1 } }
        { newResult := 0, errno := 0, strerror := fun _ => "", allocated := [7],
          groups := fun _ => [] }
      = ManagedAvahiEntryGroup.is_empty { inner := 7, client := { inner := 1 } }
        { newResult := 9, errno := -1, strerror := fun _ => "e", allocated := [7],
          groups := fun _ => [] } :=
  c8_is_empty_live.2
    { newResult := 0, errno := 0, strerror := fun _ => "", allocated := [7],
      groups := fun _ => [] }
    { newResult := 9, errno := -1, strerror := fun _ => "e", allocated := [7],
      groups := fun _ => [] }
    { inner := 7, client := { inner := 1 } } rfl

/-- C9: `reset` is total — it returns no error to the caller, and is
modelled as a plain state transformer — and it withdraws every record of
this group (the daemon's record list for the handle becomes empty), while
leaving the handle allocated and every other group untouched. -/
theorem c9_reset_total :
    ∀ (d : AvahiDaemon) (g : ManagedAvahiEntryGroup),
      (g.reset d).groups g.inner = []
      ∧ (g.reset d).allocated = d.allocated
      ∧ (∀ h2, h2 ≠ g.inner → (g.reset d).groups h2 = d.groups h2) := by
  intro d g
  refine ⟨?_, rfl, ?_⟩
  · simp [ManagedAvahiEntryGroup.reset, avahi_entry_group_reset]
  · intro h2 hne
    simp [ManagedAvahiEntryGroup.reset, avahi_entry_group_reset, hne]

/-- C9 witness: resetting a group with one registered record empties it
and keeps the handle allocated. -/
theorem c9_reset_total_witness :
    (ManagedAvahiEntryGroup.reset { inner := 7, client := { inner := 1 } }
        { newResult := 0, errno := 0, strerror := fun _ => "", allocated := [7],
          groups := fun _ => [("n", "t")] }).groups 7 = []
    ∧ (ManagedAvahiEntryGroup.reset { inner := 7, client := { inner := 1 } }
        { newResult := 0, errno := 0, strerror := fun _ => "", allocated := [7],
          groups := fun _ => [("n", "t")] }).allocated = [7] := by
  have h := c9_reset_total
    { newResult := 0, errno := 0, strerror := fun _ => "", allocated := [7],
      groups := fun _ => [("n", "t")] }
    { inner := 7, client := { inner := 1 } }
  exact ⟨h.1, h.2.1⟩

/-- C10: every constructed `ManagedAvahiEntryGroup` holds a non-null
handle — `new` returns an error instead of a group whenever the native
allocation returns null — so every operation receives a non-null inner
pointer, and the destructor releases exactly that handle. -/
theorem c10_handle_invariant :
    ∀ (d : AvahiDaemon) (c : ManagedAvahiClient) (g : ManagedAvahiEntryGroup),
      ManagedAvahiEntryGroup.new d c = .ok g →
      g.inner ≠ 0
      ∧ ∀ d2 : AvahiDaemon, (g.drop d2).allocated = d2.allocated.erase g.inner := by
  intro d c g h
  have hne : d.newResult ≠ 0 := by
    intro h0
    rw [ManagedAvahiEntryGroup.new, if_pos h0] at h
    exact Except.noConfusion h
  have hg : g = { inner := d.newResult, client := c } := by
    rw [ManagedAvahiEntryGroup.new, if_neg hne] at h
    exact (Except.ok.inj h).symm
  subst hg
  exact ⟨hne, fun d2 => rfl⟩

theorem takeWhile_delim (xs ys : List Nat) (h : delim ∉ xs) :
    (xs ++ delim :: ys).takeWhile (fun b => b ≠ delim) = xs := by
  induction xs with
  | nil =>
    rw [List.nil_append, List.takeWhile_cons]
    simp
  | cons x xs ih =>
    have hx : x ≠ delim := fun he => h (he ▸ List.mem_cons_self _ _)
    rw [List.cons_append, List.takeWhile_cons, if_pos (by simpa using hx),
      ih (fun hm => h (List.mem_cons_of_mem _ hm))]

theorem dropWhile_delim (xs ys : List Nat) (h : delim ∉ xs) :
    (xs ++ delim :: ys).dropWhile (fun b => b ≠ delim) = delim :: ys := by
  induction xs with
  | nil =>
    rw [List.nil_append, List.dropWhile_cons]
    simp
  | cons x xs ih =>
    have hx : x ≠ delim := fun he => h (he ▸ List.mem_cons_self _ _)
    rw [List.cons_append, List.dropWhile_cons, if_pos (by simpa using hx),
      ih (fun hm => h (List.mem_cons_of_mem _ hm))]

theorem splitSeg_segmentBytes (k v : String) (h : delim ∉ strBytes k) :
    TxtRecord.splitSeg (segmentBytes k v) = (k, v) := by
  simp only [TxtRecord.splitSeg, segmentBytes, List.span_eq_take_drop]
  rw [takeWhile_delim (strBytes k) (strBytes v) h,
    dropWhile_delim (strBytes k) (strBytes v) h]
  simp [strBytes_inv]

theorem parseWireAux_roundtrip (r : TxtRecord) :
    Valid r → ∀ fuel : Nat, (TxtRecord.to_wire_bytes r).length ≤ fuel →
      TxtRecord.parseWireAux fuel (TxtRecord.to_wire_bytes r) = some r := by
  induction r with
  | nil =>
    intro _ fuel _
    cases fuel with
    | zero => rfl
    | succ fuel => rfl
  | cons p rest ih =>
    intro hv fuel hlen
    obtain ⟨k, v⟩ := p
    have hvp : validPair (k, v) := hv (k, v) (List.mem_cons_self _ _)
    have hvr : Valid rest := fun q hq => hv q (List.mem_cons_of_mem _ hq)
    obtain ⟨hk1, hk2, hk3⟩ := hvp
    have hwire : TxtRecord.to_wire_bytes ((k, v) :: rest)
        = (segmentBytes k v).length % 256
            :: (segmentBytes k v ++ TxtRecord.to_wire_bytes rest) := by
      simp [TxtRecord.to_wire_bytes]
    have hmod : (segmentBytes k v).length % 256 = (segmentBytes k v).length :=
      Nat.mod_eq_of_lt (Nat.lt_of_le_of_lt hk3 (by norm_num))
    rw [hwire, hmod] at hlen ⊢
    cases fuel with
    | zero => simp at hlen
    | succ fuel =>
      have hfuel : (TxtRecord.to_wire_bytes rest).length ≤ fuel := by
        simp only [List.length_cons, List.length_append] at hlen
        omega
      have hle : (segmentBytes k v).length
          ≤ (segmentBytes k v ++ TxtRecord.to_wire_bytes rest).length := by
        simp
      simp only [TxtRecord.parseWireAux]
      rw [if_pos hle, List.take_left, List.drop_left, ih hvr fuel hfuel]
      simp [splitSeg_segmentBytes k v hk2]

/-- C2: serialize and parse are exact inverses on valid records: for every
record whose attributes pass `insert`'s checks, parsing the serialized wire
form returns the record itself, key order and values preserved; the empty
record is valid and successful inserts preserve validity, so this covers
every record reachable through the API. -/
theorem c2_parse_serialize_roundtrip :
    (∀ r : TxtRecord, Valid r →
        TxtRecord.parseWire (TxtRecord.to_wire_bytes r) = some r)
    ∧ Valid TxtRecord.new
    ∧ (∀ (r r2 : TxtRecord) (k v : String),
        Valid r → TxtRecord.insert r k v = .ok r2 → Valid r2) := by
  refine ⟨?_, ?_, ?_⟩
  · intro r hv
    exact parseWireAux_roundtrip r hv _ le_rfl
  · intro p hp
    simp [TxtRecord.new] at hp
  · intro r r2 k v hv hok
    unfold TxtRecord.insert at hok
    split_ifs at hok with h1 h2 h3
    have he : r2 = TxtRecord.insertPair r k v := (Except.ok.inj hok).symm
    subst he
    intro p hp
    rcases mem_insertPair r k v p hp with h | h
    · subst h
      exact ⟨h1, by simpa using h2, Nat.le_of_not_lt h3⟩
    · exact hv p h

/-- C2 witness: a two-attribute record survives the round trip. -/
theorem c2_parse_serialize_roundtrip_witness :
    TxtRecord.parseWire (TxtRecord.to_wire_bytes [("foo", "bar"), ("hello", "world")])
      = some [("foo", "bar"), ("hello", "world")] :=
  c2_parse_serialize_roundtrip.1 [("foo", "bar"), ("hello", "world")] (by decide)

/-- C10 witness: a group constructed from a daemon returning handle 7 has a
non-null handle and its destructor erases exactly that handle. -/
theorem c10_handle_invariant_witness :
    (7 : Nat) ≠ 0
    ∧ ∀ d2 : AvahiDaemon,
        (ManagedAvahiEntryGroup.drop { inner := 7, client := { inner := 1 } } d2).allocated
          = d2.allocated.erase 7 :=
  c10_handle_invariant
    { newResult := 7, errno := 0, strerror := fun _ => "", allocated := [],
      groups := fun _ => [] }
    { inner := 1 } { inner := 7, client := { inner := 1 } } (by decide)

end Zeroconf
